import Mathlib

/-!
Verification of the SMP profile-alignment core (`smpfunc.py`).

The Python source is shallowly embedded over exact rationals (`ℚ`) for the
array-processing code, and over `ℝ` for the closed-form calibration model
(which calls the transcendental `np.log`).  NumPy float arrays become
`List ℚ`; a NaN entry of a statistics column becomes `Option ℚ` with `none`
playing the role of NaN.  The global NumPy random state consumed by
`np.random.uniform` and `np.random.choice` is modelled as two position-indexed
draw streams together with a cursor pair that every call threads forward:
this captures exactly the shared-state, order-dependent consumption of the
source.  The unbounded `while True:` rejection loop of `random_scaling` is
modelled with a fuel parameter; returning `none` means the loop has not
terminated within `fuel` attempts.
-/

attribute [local semireducible] Rat.add Rat.sub Rat.mul Rat.inv Rat.ofScientific

unseal List.merge List.mergeSort

set_option maxRecDepth 4000

/-- Python `round` / the rounding step of `np.round`: round half to even
(banker's rounding), as used by `scipy` when converting `len(orig) * zoom`
to an output length.  For the integer-valued arguments arising in this
development the tie rule is irrelevant, but it is modelled faithfully. -/
def pyRound (q : ℚ) : ℤ :=
  if Int.fract q = 1 / 2 then (if ⌊q⌋ % 2 = 0 then ⌊q⌋ else ⌊q⌋ + 1) else round q

/-- `np.arange(start, stop, step)`: `start + k * step` for
`0 ≤ k < ⌈(stop - start) / step⌉`.  NumPy raises on a zero step; that case is
mapped to the empty list and is never reached by the theorems below. -/
def arangeQ (start stop step : ℚ) : List ℚ :=
  if step = 0 then []
  else (List.range (⌈(stop - start) / step⌉).toNat).map
    (fun k : ℕ => start + (k : ℚ) * step)

/-- `np.argmin(np.abs(xs - t))`: index of the first element at minimal
distance from `t`.  NumPy raises on an empty array; the embedding returns `0`
there, a case never reached by the theorems below. -/
def argminAbs (xs : List ℚ) (t : ℚ) : ℕ :=
  match xs with
  | [] => 0
  | [_] => 0
  | x :: rest =>
    let j := argminAbs rest t
    if |rest.getD j 0 - t| < |x - t| then j + 1 else 0

/-- NumPy `%` on floats for a positive divisor: `a - b * ⌊a / b⌋`.  NumPy
yields NaN for `b = 0`; the embedding returns `0` there, a case never reached
by the theorems below. -/
def qmod (a b : ℚ) : ℚ :=
  if b = 0 then 0 else a - b * ⌊a / b⌋

/-- `np.argsort(l)` for a list of naturals: the indices of `l` sorted by
their values (ties by position; the inputs it receives here are permutations,
so ties do not occur). -/
def argsortN (l : List ℕ) : List ℕ :=
  (List.range l.length).mergeSort
    (fun i j => l.getD i 0 < l.getD j 0 || (l.getD i 0 == l.getD j 0 && i ≤ j))

/-- The global NumPy random state, modelled as two position-indexed streams:
`uni k` is the result of the `(k+1)`-st call to
`np.random.uniform(-max_change_layer, max_change_layer)` made by the process,
and `perm k` the result of the `(k+1)`-st call to
`np.random.choice(n, n, replace=False)`.  A cursor pair records how much of
each stream has been consumed so far; every draw advances the shared cursor,
exactly as every draw advances the single global NumPy generator. -/
structure RNG where
  uni : ℕ → ℚ
  perm : ℕ → List ℕ

/-- Cursor into the shared random state: `u` uniform draws and `p`
permutation draws have been consumed so far. -/
structure RNGPos where
  u : ℕ
  p : ℕ
  deriving DecidableEq

/-- One iteration of the `while True:` body of `random_scaling`
(smpfunc.py lines 129-135): draw `layer_order = np.random.choice(n, n,
replace=False)`, then append one `np.random.uniform(-max_change_layer,
max_change_layer)` draw per element of `layer_order`.  Returns
`(layer_stretch, layer_order, advanced cursor)`. -/
def scalingAttempt (g : RNG) (pos : RNGPos) : List ℚ × List ℕ × RNGPos :=
  let order := g.perm pos.p
  let stretch := (List.range order.length).map (fun k => g.uni (pos.u + k))
  (stretch, order, ⟨pos.u + order.length, pos.p + 1⟩)

/-- The unbounded rejection loop of `random_scaling`: retry whole-vector
draws until `|layer_stretch.sum()| ≤ max_change`.  The source has no retry
cap (`while True:`); `fuel` bounds the modelled execution, and `none` means
the loop is still running after `fuel` attempts. -/
def randomScalingLoop (max_change : ℚ) (g : RNG) : ℕ → RNGPos → Option (List ℚ × List ℕ × RNGPos)
  | 0, _ => none
  | fuel + 1, pos =>
    let a := scalingAttempt g pos
    if |a.1.sum| ≤ max_change then some a else randomScalingLoop max_change g fuel a.2.2

/-- `random_scaling(layer_num, max_change, max_change_layer)` (smpfunc.py
lines 120-137): run the rejection loop, then un-permute the accepted draws,
returning `layer_stretch[np.argsort(layer_order)]` and the advanced cursor.
`layer_num` and `max_change_layer` live in the streams of `g`: `g.perm`
returns length-`layer_num` permutations and `g.uni` values in
`[-max_change_layer, max_change_layer]`. -/
def random_scaling (fuel : ℕ) (max_change : ℚ) (g : RNG) (pos : RNGPos) :
    Option (List ℚ × RNGPos) :=
  (randomScalingLoop max_change g fuel pos).map
    (fun r => ((argsortN r.2.1).map (fun i => r.1.getD i 0), r.2.2))

/-- The candidate-generation comprehension of `eval_scaling`
(smpfunc.py line 225): `[random_scaling(...) for x in np.repeat(num_sections,
num_tests)]`.  The trials consume the one shared random state sequentially:
trial `t+1` starts at the cursor where trial `t` stopped. -/
def randomTests (fuel : ℕ) (max_change : ℚ) (g : RNG) :
    ℕ → RNGPos → Option (List (List ℚ) × RNGPos)
  | 0, pos => some ([], pos)
  | t + 1, pos =>
    match random_scaling fuel max_change g pos with
    | none => none
    | some (v, pos1) =>
      match randomTests fuel max_change g t pos1 with
      | none => none
      | some (vs, pos2) => some (v :: vs, pos2)

/-- Cursor after `k` rejected attempts of the rejection loop. -/
def attemptPosIter (g : RNG) (pos : RNGPos) : ℕ → RNGPos
  | 0 => pos
  | k + 1 => (scalingAttempt g (attemptPosIter g pos k)).2.2

/-- The `k`-th attempt of the rejection loop satisfies the total-stretch
budget `max_change`. -/
def acceptsAt (max_change : ℚ) (g : RNG) (pos : RNGPos) (k : ℕ) : Prop :=
  |(scalingAttempt g (attemptPosIter g pos k)).1.sum| ≤ max_change

/-- The rejection loop of `random_scaling` never terminates from `pos`:
no amount of fuel makes it return. -/
def loopsForever (max_change : ℚ) (g : RNG) (pos : RNGPos) : Prop :=
  ∀ fuel, randomScalingLoop max_change g fuel pos = none

/-- Adversarial random state: every uniform draw is `7/10` (legal for
`max_change_layer = 0.7`) and every permutation draw is the singleton `[0]`
(`layer_num = 1`).  Every attempted vector sums to `7/10`. -/
def gBad : RNG where
  uni := fun _ => 7 / 10
  perm := fun _ => [0]

/-- First ambient random state for the shared-state counterexample:
uniform draws `1/2, 1/20, 3/50, 0, 0, ...`, singleton permutations. -/
def gRun1 : RNG where
  uni := fun k => ([1 / 2, 1 / 20, 3 / 50] : List ℚ).getD k 0
  perm := fun _ => [0]

/-- Second ambient random state: identical to `gRun1` at every uniform
position `k ≥ 1` and at every permutation position, but with `1/20` instead
of `1/2` at uniform position `0` (so trial 0 accepts immediately instead of
rejecting once). -/
def gRun2 : RNG where
  uni := fun k => if k = 0 then 1 / 20 else ([1 / 2, 1 / 20, 3 / 50] : List ℚ).getD k 0
  perm := fun _ => [0]

/-- `scipy.ndimage.interpolation.zoom(v, z)`.  Output length is
`int(round(len(v) * z))` exactly as in scipy, and the grid map
`j ↦ j * (n-1) / (m-1)` is scipy's.  scipy evaluates a prefiltered order-3
spline that passes through every sample, so at knot positions (integral
grid-map images) the output is the exact sample and `z = 1` reproduces the
input exactly; BETWEEN knots the spline differs from the linear model used
here.  A zoom factor of `0`
(an empty new-axis slice) yields the empty output its zero output length
dictates.  The theorems below therefore rely only on the output length, on
the `z = 1` identity, and on values at knot positions, where the two
kernels agree. -/
def zoomLin (v : List ℚ) (z : ℚ) : List ℚ :=
  let n := v.length
  let m := (pyRound (n * z)).toNat
  if n = 0 then []
  else
    (List.range m).map (fun j : ℕ =>
      if m ≤ 1 then v.getD 0 0
      else
        let pos : ℚ := (j : ℚ) * ((n : ℚ) - 1) / ((m : ℚ) - 1)
        let i := (⌊pos⌋).toNat
        let f := pos - ⌊pos⌋
        (1 - f) * v.getD i 0 + f * v.getD (i + 1) (v.getD i 0))

/-- State threaded through the layer loop of `scale_profile`:
`(result_dist, result_value, l_last)`. -/
structure ScaleState where
  dist : List ℚ
  value : List ℚ
  llast : ℚ
  deriving DecidableEq

/-- One iteration of the layer loop of `scale_profile` (smpfunc.py lines
151-171).  `lt` is `layer_thickness`, `ds` is `depth_stretch`, `lr` is
`l_resample` and `h` is `h_resample`.  Python slices `a[i:j]` become
`(a.drop i).take (j - i)` (also empty when `j ≤ i`, as in Python). -/
def scaleStep (depth value lt ds : List ℚ) (lr h : ℚ) (st : ScaleState) (lIdx : ℕ) :
    ScaleState :=
  let ol_start := lr * lIdx
  let old_end := ol_start + lr
  let ol_start_idx := argminAbs depth ol_start
  let ol_end_idx := argminAbs depth old_end
  let orig_dist := (depth.drop ol_start_idx).take (ol_end_idx - ol_start_idx)
  let orig_value := (value.drop ol_start_idx).take (ol_end_idx - ol_start_idx)
  let s := (lt.take (lIdx + 1)).sum
  let l_end := s - qmod s h
  let l_end_idx := argminAbs ds l_end
  let l_start := st.llast + h
  let l_start_idx := argminAbs ds l_start
  if 2 < orig_value.length then
    let scaled_dist := (ds.drop l_start_idx).take (l_end_idx + 1 - l_start_idx)
    let scaling_z : ℚ := scaled_dist.length / orig_dist.length
    let scaled_value := zoomLin orig_value scaling_z
    ⟨st.dist ++ scaled_dist, st.value ++ scaled_value, l_end⟩
  else
    ⟨st.dist, st.value, l_end⟩

/-- `scale_profile(scaling_guess, depth_array, value_array, l_resample,
h_resample)` (smpfunc.py lines 139-173): returns
`(result_dist, result_value)`. -/
def scale_profile (scaling_guess depth_array value_array : List ℚ) (l_resample : ℚ)
    (h_resample : Option ℚ) : List ℚ × List ℚ :=
  let delta_h := depth_array.getD 1 0 - depth_array.getD 0 0
  let h := h_resample.getD delta_h
  let layer_thickness := scaling_guess.map (fun s => l_resample + s * l_resample)
  let new_total_thickness := layer_thickness.sum
  let depth_stretch := arangeQ 0 new_total_thickness h
  let st := (List.range scaling_guess.length).foldl
    (scaleStep depth_array value_array layer_thickness depth_stretch l_resample h)
    ⟨[], [], -h⟩
  (st.dist, st.value)

/-- `np.median` of a list: middle element of the sorted list, or the mean of
the two middle elements. -/
def medianQ (l : List ℚ) : ℚ :=
  let s := l.mergeSort (fun a b => a ≤ b)
  let n := s.length
  if n % 2 = 1 then s.getD (n / 2) 0
  else (s.getD (n / 2 - 1) 0 + s.getD (n / 2) 0) / 2

/-- The population variance `np.mean((x - x.mean())**2)`.  `np.std` is its
square root; the square root of a rational is irrational in general, so the
embedding records the variance.  A statistic is NaN (`none`) exactly when its
`np.std` is, since `√·` is total on the nonnegatives. -/
def varQ (l : List ℚ) : ℚ :=
  let mu := l.sum / l.length
  (l.map (fun x => (x - mu) * (x - mu))).sum / l.length

/-- One row of the DataFrame built by `extract_samples`.  NaN statistics are
`none`; `count_samp` is an integer and never NaN. -/
structure ExtractRow where
  count_samp : ℕ
  mean_samp : Option ℚ
  median_samp : Option ℚ
  stdev_samp : Option ℚ
  deriving DecidableEq

/-- The window `a_value[np.abs(a_height - height) <= window_size]` for one
target `height`: boolean-mask indexing pairs the two arrays positionally. -/
def windowVals (a_height a_value : List ℚ) (w height : ℚ) : List ℚ :=
  ((a_height.zip a_value).filter (fun p => |p.1 - height| ≤ w)).map (fun p => p.2)

/-- One row of `extract_samples` (smpfunc.py lines 189-192):
`count_samp = np.count_nonzero(win)` — the number of NONZERO values in the
window, not the window population; `np.mean`, `np.median` and `np.std` of an
empty window are NaN (the source suppresses the attendant RuntimeWarnings and
never raises). -/
def extractRow (a_height a_value : List ℚ) (w height : ℚ) : ExtractRow :=
  let win := windowVals a_height a_value w height
  { count_samp := (win.filter (fun v => v ≠ 0)).length
    mean_samp := if win.length = 0 then none else some (win.sum / win.length)
    median_samp := if win.length = 0 then none else some (medianQ win)
    stdev_samp := if win.length = 0 then none else some (varQ win) }

/-- `extract_samples(a_height, a_value, b_height, window_size)` (smpfunc.py
lines 185-194): one row per target height, in target order. -/
def extract_samples (a_height a_value b_height : List ℚ) (window_size : ℚ) :
    List ExtractRow :=
  b_height.map (extractRow a_height a_value window_size)

/-- A row of the comparison table passed to `calc_skill`: the columns it
reads (`mean_samp`, `ref_val`, `grain_type`), with `none` for NaN. -/
structure SkillRow where
  mean_samp : Option ℚ
  ref_val : Option ℚ
  grain_type : String
  deriving DecidableEq

/-- A row survives `dropna`: no NaN among its entries. -/
def rowComplete (r : SkillRow) : Bool :=
  r.mean_samp.isSome && r.ref_val.isSome

/-- NaN structure of `np.corrcoef(xs, ys)[1][0]`: the entry is NaN exactly
when fewer than two samples are given (the `1/(n-1)` covariance normalisation
degenerates to `0/0`) or either column has zero variance (division of `0` by
`0` in the normalisation).  Otherwise it is the finite Pearson `r`; `ℚ` has
no square root, so the value is recorded as the signed square
`r·|r| = cov·|cov| / (varx·vary)`, a strictly monotone function of `r`.
NaN-ness, the subject of the claims, is unchanged. -/
def corrR (xs ys : List ℚ) : Option ℚ :=
  let n := xs.length
  let mx := xs.sum / n
  let my := ys.sum / n
  let cov := ((xs.zip ys).map (fun p => (p.1 - mx) * (p.2 - my))).sum
  let vx := (xs.map (fun x => (x - mx) * (x - mx))).sum
  let vy := (ys.map (fun y => (y - my) * (y - my))).sum
  if n < 2 ∨ vx = 0 ∨ vy = 0 then none else some (cov * |cov| / (vx * vy))

/-- `np.sqrt(np.mean((xs - ys)**2))`, recorded without the square root (the
mean squared error): NaN (`none`) exactly when the mean runs over an empty
list, finite otherwise, exactly as the source's RMSE. -/
def rmseQ (xs ys : List ℚ) : Option ℚ :=
  if xs.length = 0 then none
  else some (((xs.zip ys).map (fun p => (p.1 - p.2) * (p.1 - p.2))).sum / xs.length)

/-- `calc_skill(result, window_size, drop_na)` (smpfunc.py lines 175-183).
`result.dropna(inplace=True)` MUTATES the caller's table; the post-call state
of that table is therefore part of the observable behaviour and is returned
as the second component.  The grain-type filter then rebinds the local name
only.  When `drop_na=False` leaves NaN entries in play, every NumPy statistic
they touch is NaN, hence the guard.  (`window_size` only feeds a commented-out
line in the source and is omitted.) -/
def calc_skill (result : List SkillRow) (drop_na : Bool) :
    (Option ℚ × Option ℚ) × List SkillRow :=
  let result1 := if drop_na then result.filter rowComplete else result
  let result2 := result1.filter (fun r => !(r.grain_type == "N" || r.grain_type == "I"))
  if result2.all rowComplete then
    let xs := result2.map (fun r => r.mean_samp.getD 0)
    let ys := result2.map (fun r => r.ref_val.getD 0)
    ((corrR xs ys, rmseQ xs ys), result1)
  else ((none, none), result1)

/-- The reference-type detection of `eval_scaling` (smpfunc.py lines
214-217): `ref_iloc = [ref_dat.columns.get_loc(c) for c in ['density','ssa']
if c in ref_dat]` followed by `ref_type = ref_dat.columns[ref_iloc][0]`.
`none` models the `IndexError` raised by the empty positional selection when
neither column is present; when both are present the FIRST match in the
probe order `['density', 'ssa']` is selected silently. -/
def refTypeSel (cols : List String) : Option String :=
  let ref_iloc := (["density", "ssa"].filter (fun c => c ∈ cols)).map
    (fun c => cols.indexOf c)
  (ref_iloc.map (fun i => cols.getD i "")).head?

/-- `DataFrame.rename(columns={old: new}, inplace=True)` as observed on the
column list. -/
def renameCol (cols : List String) (old new : String) : List String :=
  cols.map (fun c => if c = old then new else c)

/-- The column list of `ref_dat` AFTER `eval_scaling`'s in-place
`ref_dat.rename(columns={ref_type:'ref_val'}, inplace=True)` (line 218);
`none` when the selection step already raised. -/
def evalScalingRefColsAfter (cols : List String) : Option (List String) :=
  (refTypeSel cols).map (fun t => renameCol cols t "ref_val")

/-- The column list of `smp_dat` AFTER `eval_scaling`'s in-place
`smp_dat.rename(columns={ref_type:'smp_val'}, inplace=True)` (line 219),
given the reference table's columns decide `ref_type`. -/
def evalScalingSmpColsAfter (refCols smpCols : List String) : Option (List String) :=
  (refTypeSel refCols).map (fun t => renameCol smpCols t "smp_val")

/-- One record of the shot-noise table consumed by the calibration models:
the `force_median` and `l` columns. -/
structure ShotNoise where
  force_median : ℝ
  l : ℝ

/-- `np.round(x, 1)` over the reals: scale by 10, round half to even,
rescale. -/
noncomputable def npRound1 (x : ℝ) : ℝ :=
  (if Int.fract (10 * x) = 1 / 2 then
    (if ⌊10 * x⌋ % 2 = 0 then (⌊10 * x⌋ : ℝ) else (⌊10 * x⌋ : ℝ) + 1)
  else (round (10 * x) : ℝ)) / 10

/-- `calc_density(shot_noise, coefs)` (smpfunc.py lines 58-75), per record:
`np.round(coefs[0] + coefs[1]*log(F) + coefs[2]*log(F)*l + coefs[3]*l, 1)`.
The source maps this expression over the rows of the table and optionally
re-attaches it as a column (`return_df`), which only chooses the return
shape. -/
noncomputable def calc_density (shot_noise : ShotNoise) (coefs : List ℝ) : ℝ :=
  npRound1 (coefs.getD 0 0 + coefs.getD 1 0 * Real.log shot_noise.force_median +
    coefs.getD 2 0 * Real.log shot_noise.force_median * shot_noise.l +
    coefs.getD 3 0 * shot_noise.l)

/-- The density formula exactly as §4.6 of the specification words it:
`density = round(c0 + c1·ln(F) + c2·ln(F)·L + c3·L, 1)`. -/
noncomputable def densitySpec (c0 c1 c2 c3 F L : ℝ) : ℝ :=
  npRound1 (c0 + c1 * Real.log F + c2 * Real.log F * L + c3 * L)

/-- The layer loop of `scale_profile` as a function of the number of layers
processed, with the new depth axis in its explicit grid form; used to state
the loop invariant. -/
def scaleFold (depth value lt : List ℚ) (lr h : ℚ) (L j : ℕ) : ScaleState :=
  (List.range j).foldl
    (scaleStep depth value lt ((List.range L).map (fun k : ℕ => (k : ℚ) * h)) lr h)
    ⟨[], [], -h⟩

theorem getD_indexOf_mem {α : Type} [DecidableEq α] (l : List α) (a d : α) (h : a ∈ l) :
    l.getD (l.indexOf a) d = a := by
  rw [List.getD_eq_getElem _ _ (List.indexOf_lt_length.mpr h)]
  exact List.getElem_indexOf _

/-- C4 (amended): the reference-type detection of `eval_scaling` raises
(models as `none`) when NEITHER of `density`/`ssa` is present — aborting
before any trial — but when `density` is present it silently selects
`density` (also when `ssa` is present too, by the probe order), and it
selects `ssa` only when `ssa` alone is present.  It does NOT fail on the
both-present table. -/
theorem refTypeSel_cases (cols : List String) :
    ("density" ∉ cols → "ssa" ∉ cols → refTypeSel cols = none) ∧
    ("density" ∈ cols → refTypeSel cols = some "density") ∧
    ("density" ∉ cols → "ssa" ∈ cols → refTypeSel cols = some "ssa") := by
  refine ⟨fun h1 h2 => ?_, fun h1 => ?_, fun h1 h2 => ?_⟩
  · simp [refTypeSel, h1, h2]
  · by_cases h2 : "ssa" ∈ cols <;>
      simp [refTypeSel, h1, h2, getD_indexOf_mem]
  · simp [refTypeSel, h1, h2, getD_indexOf_mem]

/-- C4 witness: on a table whose only matching column is `ssa`, the
detection selects `ssa` and `eval_scaling` proceeds. -/
theorem refTypeSel_cases_witness : refTypeSel ["ssa"] = some "ssa" :=
  (refTypeSel_cases ["ssa"]).2.2 (by decide) (by decide)

/-- C4 counterexample: with BOTH `density` and `ssa` present the selection
step does not fail — it silently picks `density` — contradicting the claim
that both-present is rejected. -/
theorem refTypeSel_both_counterexample :
    refTypeSel ["density", "ssa"] = some "density" ∧
      refTypeSel ["density", "ssa"] ≠ none := by
  refine ⟨by decide, by decide⟩

/-- C10 (confirmed): `calc_density` on coefficients
`[312.54, 50.27, -50.26, -85.38]`, `force_median = 2.0`, `l = 0.05` returns
exactly `round(312.54 + 50.27·ln 2 − 50.26·ln 2·0.05 − 85.38·0.05, 1)`, and
in general it computes the §4.6 formula
`round(c0 + c1·ln F + c2·ln F·L + c3·L, 1)`. -/
theorem calc_density_formula :
    calc_density ⟨2, 0.05⟩ [312.54, 50.27, -50.26, -85.38] =
      npRound1 (312.54 + 50.27 * Real.log 2 - 50.26 * Real.log 2 * 0.05 -
        85.38 * 0.05) ∧
    ∀ c0 c1 c2 c3 F L : ℝ,
      calc_density ⟨F, L⟩ [c0, c1, c2, c3] = densitySpec c0 c1 c2 c3 F L := by
  constructor
  · unfold calc_density
    apply congrArg
    simp only [List.getD_cons_zero, List.getD_cons_succ]
    ring
  · intro c0 c1 c2 c3 F L
    rfl

theorem calc_skill_snd (res : List SkillRow) :
    (calc_skill res true).2 = res.filter rowComplete := by
  cases hc : ((res.filter rowComplete).filter
      (fun r => !(r.grain_type == "N" || r.grain_type == "I"))).all rowComplete <;>
    simp [calc_skill, hc]

/-- C9 (amended): the core operations MUTATE their inputs.
`calc_skill(result, ..., drop_na=True)` drops NaN rows of the caller's table
in place (the table is unchanged exactly when every row was already
complete), and `eval_scaling` renames the matched reference column to
`ref_val` in place, so the caller's reference table never keeps its original
column list when a match is found. -/
theorem core_inputs_mutated (res : List SkillRow) (cols : List String) (t : String)
    (h1 : refTypeSel cols = some t) (h2 : t ∈ cols) (h3 : "ref_val" ∉ cols) :
    ((calc_skill res true).2 = res ↔ res.all rowComplete) ∧
    evalScalingRefColsAfter cols ≠ some cols := by
  constructor
  · rw [calc_skill_snd, List.filter_eq_self, List.all_eq_true]
  · intro hcontra
    rw [evalScalingRefColsAfter, h1] at hcontra
    have heq : renameCol cols t "ref_val" = cols := Option.some.inj hcontra
    have hj : cols.indexOf t < cols.length := List.indexOf_lt_length.mpr h2
    have hj2 : cols.indexOf t < (renameCol cols t "ref_val").length := by
      simpa [renameCol] using hj
    have hval : (renameCol cols t "ref_val")[cols.indexOf t] = "ref_val" := by
      simp [renameCol, List.getElem_map, List.getElem_indexOf hj]
    have hcols : cols[cols.indexOf t] = "ref_val" :=
      (List.getElem_of_eq heq.symm hj).trans hval
    rw [List.getElem_indexOf hj] at hcols
    exact h3 (hcols ▸ h2)

/-- C9 witness: a complete one-row table with a `density`-only reference
column list satisfies the hypotheses. -/
theorem core_inputs_mutated_witness :
    (((calc_skill [⟨some 1, some 2, "F"⟩] true).2 = [⟨some 1, some 2, "F"⟩]) ↔
      ([⟨some 1, some 2, "F"⟩] : List SkillRow).all rowComplete) ∧
    evalScalingRefColsAfter ["density"] ≠ some ["density"] :=
  core_inputs_mutated [⟨some 1, some 2, "F"⟩] ["density"] "density"
    (by decide) (by decide) (by decide)

/-- C9 counterexample: `eval_scaling` rewrites the caller's reference
column list in place (`density` becomes `ref_val`), and `calc_skill` with
`drop_na=True` removes the incomplete row from the caller's table in place:
the inputs are NOT left unchanged. -/
theorem core_inputs_mutated_counterexample :
    evalScalingRefColsAfter ["site", "height", "density"] =
      some ["site", "height", "ref_val"] ∧
    some ["site", "height", "ref_val"] ≠ some ["site", "height", "density"] ∧
    (calc_skill [⟨none, some 1, "F"⟩] true).2 = [] ∧
    ([] : List SkillRow) ≠ [⟨none, some 1, "F"⟩] := by
  refine ⟨by decide, by decide, by decide, by decide⟩

/-- C7 (amended): when fewer than two valid rows survive the NaN drop and
the grain-type exclusion, `calc_skill` yields NaN for the correlation `r` in
every case, but the RMSE is NaN only for ZERO valid rows; for exactly one
valid row the RMSE is a finite number (the error of that single pair).
No exception is raised in either case. -/
theorem calc_skill_few_rows (res : List SkillRow)
    (h : ((res.filter rowComplete).filter
      (fun r => !(r.grain_type == "N" || r.grain_type == "I"))).length ≤ 1) :
    (calc_skill res true).1.1 = none ∧
    (((res.filter rowComplete).filter
        (fun r => !(r.grain_type == "N" || r.grain_type == "I"))).length = 0 →
      (calc_skill res true).1.2 = none) ∧
    (((res.filter rowComplete).filter
        (fun r => !(r.grain_type == "N" || r.grain_type == "I"))).length = 1 →
      ∃ q, (calc_skill res true).1.2 = some q) := by
  have hall : (((res.filter rowComplete).filter
      (fun r => !(r.grain_type == "N" || r.grain_type == "I"))).all rowComplete) = true := by
    rw [List.all_eq_true]
    intro x hx
    exact (List.mem_filter.mp (List.mem_filter.mp hx).1).2
  have hskill : calc_skill res true =
      ((corrR (((res.filter rowComplete).filter
          (fun r => !(r.grain_type == "N" || r.grain_type == "I"))).map
            (fun r => r.mean_samp.getD 0))
        (((res.filter rowComplete).filter
          (fun r => !(r.grain_type == "N" || r.grain_type == "I"))).map
            (fun r => r.ref_val.getD 0)),
        rmseQ (((res.filter rowComplete).filter
          (fun r => !(r.grain_type == "N" || r.grain_type == "I"))).map
            (fun r => r.mean_samp.getD 0))
        (((res.filter rowComplete).filter
          (fun r => !(r.grain_type == "N" || r.grain_type == "I"))).map
            (fun r => r.ref_val.getD 0))),
        res.filter rowComplete) := by
    simp [calc_skill, hall]
  rw [hskill]
  refine ⟨?_, fun h0 => ?_, fun h1 => ?_⟩
  · rw [corrR]
    rw [if_pos]
    left
    simp only [List.length_map]
    omega
  · rw [rmseQ, if_pos]
    simp only [List.length_map]
    exact h0
  · rw [rmseQ, if_neg (by simp only [List.length_map]; omega)]
    exact ⟨_, rfl⟩

/-- C7 witness: a table with exactly one valid comparison row. -/
theorem calc_skill_few_rows_witness :
    (calc_skill [⟨some 1, some 3, "F"⟩] true).1.1 = none ∧
    ∃ q, (calc_skill [⟨some 1, some 3, "F"⟩] true).1.2 = some q := by
  have h := calc_skill_few_rows [⟨some 1, some 3, "F"⟩] (by decide)
  exact ⟨h.1, h.2.2 (by decide)⟩

/-- C7 counterexample: on a single valid row (`mean_samp = 1`,
`ref_val = 3`) the correlation is NaN but the RMSE is the finite number
whose square is `4` — NOT NaN, contradicting the claim that both metrics
are NaN whenever fewer than two valid rows remain. -/
theorem calc_skill_one_row_counterexample :
    (calc_skill [⟨some 1, some 3, "F"⟩] true).1 = (none, some 4) ∧
    some (4 : ℚ) ≠ none := by
  refine ⟨by decide, by decide⟩

/-- C6 (amended): the row `extract_samples` returns for target depth `d`
has `count_samp` equal to the number of source samples in the window whose
VALUE IS NONZERO (`np.count_nonzero`), not the window population; when no
source sample lies in the window the count is `0` and mean, median and
stdev are NaN, and nothing is raised. -/
theorem extract_samples_row_spec (a_height a_value b_height : List ℚ) (w : ℚ)
    (i : ℕ) (hi : i < b_height.length) :
    (extract_samples a_height a_value b_height w).getD i ⟨0, none, none, none⟩ =
      extractRow a_height a_value w (b_height.getD i 0) ∧
    ∀ d : ℚ,
      (extractRow a_height a_value w d).count_samp =
        (a_height.zip a_value).countP (fun p => decide (|p.1 - d| ≤ w ∧ p.2 ≠ 0)) ∧
      ((∀ p ∈ a_height.zip a_value, ¬ (|p.1 - d| ≤ w)) →
        (extractRow a_height a_value w d).count_samp = 0 ∧
        (extractRow a_height a_value w d).mean_samp = none ∧
        (extractRow a_height a_value w d).median_samp = none ∧
        (extractRow a_height a_value w d).stdev_samp = none) := by
  constructor
  · unfold extract_samples
    rw [List.getD_eq_getElem _ _ (by simpa using hi), List.getElem_map,
      ← List.getD_eq_getElem _ _ hi]
  · intro d
    constructor
    · show ((windowVals a_height a_value w d).filter (fun v => v ≠ 0)).length = _
      rw [windowVals, List.filter_map, List.length_map, List.filter_filter,
        List.countP_eq_length_filter]
      congr 1
      apply List.filter_congr
      intro p _
      simp only [Bool.decide_and, Function.comp]
      exact Bool.and_comm _ _
    · intro hempty
      have hwin : windowVals a_height a_value w d = [] := by
        rw [windowVals, List.map_eq_nil_iff]
        rw [List.filter_eq_nil_iff]
        intro p hp
        simpa using hempty p hp
      refine ⟨?_, ?_, ?_, ?_⟩ <;> simp [extractRow, hwin]

/-- C6 witness: a window containing no source sample: count `0` and NaN
statistics, and a window with two samples, one of them zero: count `1`. -/
theorem extract_samples_row_spec_witness :
    (extract_samples [0, 1] [3, 5] [10] 2).getD 0 ⟨0, none, none, none⟩ =
      extractRow [0, 1] [3, 5] 2 10 ∧
    (extractRow [0, 1] [3, 5] 2 10).count_samp = 0 ∧
    (extractRow [0, 1] [3, 5] 2 10).mean_samp = none ∧
    (extractRow [0, 1] [3, 5] 2 10).median_samp = none ∧
    (extractRow [0, 1] [3, 5] 2 10).stdev_samp = none := by
  have h := extract_samples_row_spec [0, 1] [3, 5] [10] 2 0 (by decide)
  exact ⟨h.1, (h.2 10).2 (by decide)⟩

/-- C6 counterexample: two source samples lie in the window `|depth| ≤ 2`
around `d = 0`, but one value is `0`, so `np.count_nonzero` reports `1`:
the returned count is NOT the number of in-window source samples. -/
theorem extract_samples_count_counterexample :
    (extract_samples [0, 1] [0, 5] [0] 2).map (fun r => r.count_samp) = [1] ∧
    (([0, 1] : List ℚ).zip ([0, 5] : List ℚ)).countP
      (fun p => decide (|p.1 - (0 : ℚ)| ≤ 2)) = 2 ∧
    (1 : ℕ) ≠ 2 := by decide

theorem argsortN_perm (l : List ℕ) : (argsortN l).Perm (List.range l.length) :=
  List.mergeSort_perm _ _

theorem map_getD_range (l : List ℚ) :
    (List.range l.length).map (fun i => l.getD i 0) = l := by
  apply List.ext_getElem
  · simp
  · intro n h1 h2
    rw [List.getElem_map, List.getElem_range, List.getD_eq_getElem _ _ h2]

theorem randomScalingLoop_some_spec (m : ℚ) (g : RNG) :
    ∀ (fuel : ℕ) (pos : RNGPos) (r : List ℚ × List ℕ × RNGPos),
      randomScalingLoop m g fuel pos = some r →
      (∃ q : RNGPos, r.2.1 = g.perm q.p ∧
        r.1 = (List.range (g.perm q.p).length).map (fun k => g.uni (q.u + k))) ∧
      |r.1.sum| ≤ m := by
  intro fuel
  induction fuel with
  | zero => intro pos r h; cases h
  | succ n ih =>
    intro pos r h
    simp only [randomScalingLoop] at h
    split at h
    · rename_i hacc
      obtain rfl := Option.some.inj h
      exact ⟨⟨pos, rfl, rfl⟩, hacc⟩
    · exact ih _ _ h

/-- C2 (confirmed): every vector returned by `random_scaling` whose random
state draws length-`n` permutations (`layer_num = n`) and uniforms in
`[-max_change_layer, max_change_layer]` has length `n`, entrywise magnitude
at most `max_change_layer`, and total magnitude at most `max_change`. -/
theorem random_scaling_bounds (fuel n : ℕ) (max_change max_change_layer : ℚ)
    (g : RNG) (pos pos2 : RNGPos) (v : List ℚ)
    (hv : random_scaling fuel max_change g pos = some (v, pos2))
    (hu : ∀ k, |g.uni k| ≤ max_change_layer)
    (hp : ∀ k, (g.perm k).length = n) :
    v.length = n ∧ (∀ x ∈ v, |x| ≤ max_change_layer) ∧ |v.sum| ≤ max_change := by
  rw [random_scaling] at hv
  cases hl : randomScalingLoop max_change g fuel pos with
  | none => rw [hl] at hv; cases hv
  | some r =>
    rw [hl] at hv
    obtain ⟨⟨q, ho, hs⟩, hsum⟩ := randomScalingLoop_some_spec max_change g fuel pos r hl
    have hvv : v = (argsortN r.2.1).map (fun i => r.1.getD i 0) :=
      (congrArg Prod.fst (Option.some.inj hv)).symm
    have hslen : r.1.length = n := by rw [hs, List.length_map, List.length_range, hp]
    have holen : r.2.1.length = n := by rw [ho, hp]
    have hperm : (argsortN r.2.1).Perm (List.range n) := by
      have h0 := argsortN_perm r.2.1
      rwa [holen] at h0
    refine ⟨?_, ?_, ?_⟩
    · rw [hvv, List.length_map, argsortN, List.length_mergeSort, List.length_range, holen]
    · intro x hx
      rw [hvv] at hx
      obtain ⟨i, hi, rfl⟩ := List.mem_map.mp hx
      have hin : i < n := by
        have := hperm.mem_iff.mp hi
        simpa using this
      have hir : i < r.1.length := hslen ▸ hin
      rw [List.getD_eq_getElem _ _ hir]
      have : r.1[i] = g.uni (q.u + i) := by
        simp only [hs, List.getElem_map, List.getElem_range]
      rw [this]
      exact hu _
    · have hvperm : v.Perm ((List.range n).map (fun i => r.1.getD i 0)) := by
        rw [hvv]; exact hperm.map _
      have hid : ((List.range n).map (fun i => r.1.getD i 0)) = r.1 := by
        rw [← hslen]
        exact map_getD_range r.1
      rw [hvperm.sum_eq, hid]
      exact hsum

/-- C2 witness: a state drawing the permutation `[1, 0]` and uniform draws
`0` yields the vector `[0, 0]` of length `2` within the bounds
`max_change_layer = 7/10` and `max_change = 1/10`. -/
theorem random_scaling_bounds_witness :
    ([0, 0] : List ℚ).length = 2 ∧ (∀ x ∈ ([0, 0] : List ℚ), |x| ≤ 7 / 10) ∧
      |([0, 0] : List ℚ).sum| ≤ 1 / 10 :=
  random_scaling_bounds 1 2 (1 / 10) (7 / 10)
    (RNG.mk (fun _ => 0) (fun _ => [1, 0])) ⟨0, 0⟩ ⟨2, 1⟩ [0, 0]
    (by decide) (fun k => by norm_num) (fun k => rfl)

theorem attemptPosIter_shift (g : RNG) (pos : RNGPos) (k : ℕ) :
    attemptPosIter g pos (k + 1) =
      attemptPosIter g (scalingAttempt g pos).2.2 k := by
  induction k with
  | zero => rfl
  | succ n ih => rw [attemptPosIter, ih, attemptPosIter]

theorem gBad_loop_none : ∀ (fuel : ℕ) (pos : RNGPos),
    randomScalingLoop (1 / 10) gBad fuel pos = none := by
  intro fuel
  induction fuel with
  | zero => intro pos; rfl
  | succ n ih =>
    intro pos
    rw [randomScalingLoop]
    rw [if_neg]
    · exact ih _
    · have hval : (scalingAttempt gBad pos).1 = [7 / 10] := rfl
      rw [hval]
      decide

/-- C3 (amended): the rejection loop of `random_scaling` has NO retry cap
and no failure mode: within any fuel bound it returns exactly when one of
the attempts inside that bound satisfies the total-stretch budget, and when
no attempt ever satisfies it the `while True:` loop runs forever. -/
theorem randomScalingLoop_none_iff (m : ℚ) (g : RNG) :
    ∀ (fuel : ℕ) (pos : RNGPos),
      randomScalingLoop m g fuel pos = none ↔ ∀ k < fuel, ¬ acceptsAt m g pos k := by
  intro fuel
  induction fuel with
  | zero => intro pos; simp [randomScalingLoop]
  | succ n ih =>
    intro pos
    rw [randomScalingLoop]
    by_cases hacc : |(scalingAttempt g pos).1.sum| ≤ m
    · rw [if_pos hacc]
      constructor
      · intro h; cases h
      · intro h
        exact absurd hacc (h 0 (Nat.succ_pos n))
    · rw [if_neg hacc, ih]
      constructor
      · intro h k hk
        match k with
        | 0 => exact hacc
        | k + 1 =>
          rw [acceptsAt, attemptPosIter_shift]
          exact h k (Nat.lt_of_succ_lt_succ hk)
      · intro h k hk
        rw [acceptsAt, ← attemptPosIter_shift]
        exact h (k + 1) (Nat.succ_lt_succ hk)

/-- C3 witness: on the adversarial state `gBad` no attempt within fuel `2`
meets the budget, so the loop is still running after two attempts. -/
theorem randomScalingLoop_none_iff_witness :
    randomScalingLoop (1 / 10) gBad 2 ⟨0, 0⟩ = none :=
  (randomScalingLoop_none_iff (1 / 10) gBad 2 ⟨0, 0⟩).mpr (by
    intro k hk
    interval_cases k <;> (rw [acceptsAt]; decide))

/-- C3 counterexample: with every uniform draw equal to `7/10` (legal for
`max_change_layer = 0.7`) and `max_change = 0.1`, `random_scaling`'s
rejection loop never returns, however much fuel it is given: the source's
`while True:` loop (smpfunc.py:129) has no retry cap and no
`ScalingBudgetUnsatisfiable` error, and it does not always terminate. -/
theorem random_scaling_loops_forever_counterexample :
    loopsForever (1 / 10) gBad ⟨0, 0⟩ :=
  fun fuel => gBad_loop_none fuel ⟨0, 0⟩

theorem randomScalingLoop_shift (m : ℚ) (g1 g2 : RNG) :
    ∀ (fuel : ℕ) (p1 p2 : RNGPos),
      (∀ k, g1.uni (p1.u + k) = g2.uni (p2.u + k)) →
      (∀ k, g1.perm (p1.p + k) = g2.perm (p2.p + k)) →
      (randomScalingLoop m g1 fuel p1 = none ∧ randomScalingLoop m g2 fuel p2 = none) ∨
      (∃ s o cu cp,
        randomScalingLoop m g1 fuel p1 = some (s, o, ⟨p1.u + cu, p1.p + cp⟩) ∧
        randomScalingLoop m g2 fuel p2 = some (s, o, ⟨p2.u + cu, p2.p + cp⟩)) := by
  intro fuel
  induction fuel with
  | zero => intro p1 p2 hu hp; exact Or.inl ⟨rfl, rfl⟩
  | succ n ih =>
    intro p1 p2 hu hp
    have horder : g1.perm p1.p = g2.perm p2.p := by
      have := hp 0
      simpa using this
    have hstretch : (scalingAttempt g1 p1).1 = (scalingAttempt g2 p2).1 := by
      show (List.range (g1.perm p1.p).length).map (fun k => g1.uni (p1.u + k)) =
        (List.range (g2.perm p2.p).length).map (fun k => g2.uni (p2.u + k))
      rw [← horder]
      exact List.map_congr_left (fun a _ => hu a)
    by_cases hacc : |(scalingAttempt g1 p1).1.sum| ≤ m
    · refine Or.inr ⟨(scalingAttempt g1 p1).1, g1.perm p1.p, (g1.perm p1.p).length, 1,
        ?_, ?_⟩
      · rw [randomScalingLoop, if_pos hacc]
        rfl
      · rw [randomScalingLoop, if_pos (by rw [← hstretch]; exact hacc), hstretch, horder]
        rfl
    · rw [randomScalingLoop, if_neg hacc, randomScalingLoop,
        if_neg (by rw [← hstretch]; exact hacc)]
      have hu2 : ∀ k, g1.uni ((scalingAttempt g1 p1).2.2.u + k) =
          g2.uni ((scalingAttempt g2 p2).2.2.u + k) := by
        intro k
        show g1.uni (p1.u + (g1.perm p1.p).length + k) =
          g2.uni (p2.u + (g2.perm p2.p).length + k)
        rw [← horder, Nat.add_assoc, Nat.add_assoc]
        exact hu _
      have hp2 : ∀ k, g1.perm ((scalingAttempt g1 p1).2.2.p + k) =
          g2.perm ((scalingAttempt g2 p2).2.2.p + k) := by
        intro k
        show g1.perm (p1.p + 1 + k) = g2.perm (p2.p + 1 + k)
        rw [Nat.add_assoc, Nat.add_assoc]
        exact hp _
      rcases ih (scalingAttempt g1 p1).2.2 (scalingAttempt g2 p2).2.2 hu2 hp2 with
        ⟨h1, h2⟩ | ⟨s, o, cu, cp, h1, h2⟩
      · exact Or.inl ⟨h1, h2⟩
      · refine Or.inr ⟨s, o, (g1.perm p1.p).length + cu, 1 + cp, ?_, ?_⟩
        · rw [h1]
          show some (s, o, RNGPos.mk (p1.u + (g1.perm p1.p).length + cu)
            (p1.p + 1 + cp)) = _
          rw [Nat.add_assoc, Nat.add_assoc]
        · rw [h2]
          show some (s, o, RNGPos.mk (p2.u + (g2.perm p2.p).length + cu)
            (p2.p + 1 + cp)) = _
          rw [horder, Nat.add_assoc, Nat.add_assoc]

theorem randomTests_shift (fuel : ℕ) (m : ℚ) (g1 g2 : RNG) :
    ∀ (t : ℕ) (p1 p2 : RNGPos),
      (∀ k, g1.uni (p1.u + k) = g2.uni (p2.u + k)) →
      (∀ k, g1.perm (p1.p + k) = g2.perm (p2.p + k)) →
      (randomTests fuel m g1 t p1 = none ∧ randomTests fuel m g2 t p2 = none) ∨
      (∃ vs cu cp,
        randomTests fuel m g1 t p1 = some (vs, ⟨p1.u + cu, p1.p + cp⟩) ∧
        randomTests fuel m g2 t p2 = some (vs, ⟨p2.u + cu, p2.p + cp⟩)) := by
  intro t
  induction t with
  | zero =>
    intro p1 p2 hu hp
    exact Or.inr ⟨[], 0, 0, rfl, rfl⟩
  | succ n ih =>
    intro p1 p2 hu hp
    rcases randomScalingLoop_shift m g1 g2 fuel p1 p2 hu hp with
      ⟨h1, h2⟩ | ⟨s, o, cu, cp, h1, h2⟩
    · rw [randomTests, random_scaling, h1, randomTests, random_scaling, h2]
      exact Or.inl ⟨rfl, rfl⟩
    · have hu2 : ∀ k, g1.uni (p1.u + cu + k) = g2.uni (p2.u + cu + k) := by
        intro k
        rw [Nat.add_assoc, Nat.add_assoc]
        exact hu _
      have hp2 : ∀ k, g1.perm (p1.p + cp + k) = g2.perm (p2.p + cp + k) := by
        intro k
        rw [Nat.add_assoc, Nat.add_assoc]
        exact hp _
      rcases ih ⟨p1.u + cu, p1.p + cp⟩ ⟨p2.u + cu, p2.p + cp⟩ hu2 hp2 with
        ⟨h3, h4⟩ | ⟨vs, cu2, cp2, h3, h4⟩
      · rw [randomTests, random_scaling, h1, randomTests, random_scaling, h2]
        simp only [Option.map_some']
        exact Or.inl ⟨by rw [h3], by rw [h4]⟩
      · rw [randomTests, random_scaling, h1, randomTests, random_scaling, h2]
        simp only [Option.map_some']
        refine Or.inr ⟨(argsortN o).map (fun i => s.getD i 0) :: vs, cu + cu2, cp + cp2,
          ?_, ?_⟩
        · dsimp only at h3
          rw [h3, ← Nat.add_assoc, ← Nat.add_assoc]
        · dsimp only at h4
          rw [h4, ← Nat.add_assoc, ← Nat.add_assoc]

/-- C1 (amended): the candidate generation of `eval_scaling` is a
deterministic function of the ambient global random state: two runs whose
global streams agree from their respective cursors onward (and whose
explicit inputs agree) produce the identical sequence of trial vectors.
There is no seed parameter in the source; reproducibility holds exactly when
the shared global NumPy state is identical, and trial `t`'s draws are NOT a
function of `t` alone — they shift with the consumption of trials before it
(see the counterexample). -/
theorem randomTests_deterministic_in_state (fuel t : ℕ) (m : ℚ) (g1 g2 : RNG)
    (p1 p2 : RNGPos)
    (hu : ∀ k, g1.uni (p1.u + k) = g2.uni (p2.u + k))
    (hp : ∀ k, g1.perm (p1.p + k) = g2.perm (p2.p + k)) :
    Option.map (fun r => r.1) (randomTests fuel m g1 t p1) =
      Option.map (fun r => r.1) (randomTests fuel m g2 t p2) := by
  rcases randomTests_shift fuel m g1 g2 t p1 p2 hu hp with
    ⟨h1, h2⟩ | ⟨vs, cu, cp, h1, h2⟩ <;> rw [h1, h2] <;> rfl

/-- C1 witness: two runs over the same global stream from the same cursor. -/
theorem randomTests_deterministic_in_state_witness :
    Option.map (fun r => r.1) (randomTests 5 (1 / 10) gRun1 2 ⟨0, 0⟩) =
      Option.map (fun r => r.1) (randomTests 5 (1 / 10) gRun1 2 ⟨0, 0⟩) :=
  randomTests_deterministic_in_state 5 2 (1 / 10) gRun1 gRun1 ⟨0, 0⟩ ⟨0, 0⟩
    (fun _ => rfl) (fun _ => rfl)

/-- C1 counterexample: `gRun1` and `gRun2` agree at every uniform position
`k ≥ 1` and at every permutation position; they differ only in the first
uniform draw, which trial 0 consumes.  With identical explicit inputs
(2 trials, budget `1/10`, one layer), trial 1 nevertheless yields `[3/50]`
in the first run and `[1/20]` in the second: trial 1's randomness depends on
how many draws trial 0 consumed from the shared global state, so it is not
derived from a `(seed, trial_index)` pair, and repeated runs under different
ambient states yield different candidate vectors. -/
theorem randomTests_shared_state_counterexample :
    randomTests 5 (1 / 10) gRun1 2 ⟨0, 0⟩ =
      some ([[1 / 20], [3 / 50]], ⟨3, 3⟩) ∧
    randomTests 5 (1 / 10) gRun2 2 ⟨0, 0⟩ =
      some ([[1 / 20], [1 / 20]], ⟨2, 2⟩) ∧
    Option.map (fun r => r.1) (randomTests 5 (1 / 10) gRun1 2 ⟨0, 0⟩) ≠
      Option.map (fun r => r.1) (randomTests 5 (1 / 10) gRun2 2 ⟨0, 0⟩) := by
  refine ⟨by decide, by decide, by decide⟩

/-- C5 (amended): on an 8-point regularly spaced profile with two 4-sample
layers and the all-zero ScalingVector, `scale_profile` reproduces the full
resampled depth axis and an 8-value output, but NOT the source values: the
source slice of a layer is end-EXCLUSIVE while the new-axis slice is
end-INCLUSIVE, so the first layer's 4 source values are resampled onto 5
output steps and the second layer's values are shifted down one step,
dropping the final source sample `80`.  At the resampling knots — where
scipy's interpolating spline reproduces the samples exactly, so the facts
below are kernel-independent — the warped profile carries `40` at depth `4`
where the resampled source has `50`, and `50, 60, 70` at depths `5, 6, 7`
where the source has `60, 70, 80`; only the leading knot (depth `0`) agrees
with the source.  The output equals the resampled source only where the
source is locally constant. -/
theorem scale_profile_zero_scaling_shifted :
    (scale_profile [0, 0] [0, 1, 2, 3, 4, 5, 6, 7]
      [10, 20, 30, 40, 50, 60, 70, 80] 4 none).1 =
      ([0, 1, 2, 3, 4, 5, 6, 7] : List ℚ) ∧
    (scale_profile [0, 0] [0, 1, 2, 3, 4, 5, 6, 7]
      [10, 20, 30, 40, 50, 60, 70, 80] 4 none).2.length = 8 ∧
    (scale_profile [0, 0] [0, 1, 2, 3, 4, 5, 6, 7]
      [10, 20, 30, 40, 50, 60, 70, 80] 4 none).2.getD 0 0 = 10 ∧
    (scale_profile [0, 0] [0, 1, 2, 3, 4, 5, 6, 7]
      [10, 20, 30, 40, 50, 60, 70, 80] 4 none).2.getD 4 0 = 40 ∧
    (scale_profile [0, 0] [0, 1, 2, 3, 4, 5, 6, 7]
      [10, 20, 30, 40, 50, 60, 70, 80] 4 none).2.getD 5 0 = 50 ∧
    (scale_profile [0, 0] [0, 1, 2, 3, 4, 5, 6, 7]
      [10, 20, 30, 40, 50, 60, 70, 80] 4 none).2.getD 6 0 = 60 ∧
    (scale_profile [0, 0] [0, 1, 2, 3, 4, 5, 6, 7]
      [10, 20, 30, 40, 50, 60, 70, 80] 4 none).2.getD 7 0 = 70 ∧
    ([10, 20, 30, 40, 50, 60, 70, 80] : List ℚ).getD 4 0 = 50 ∧
    ([10, 20, 30, 40, 50, 60, 70, 80] : List ℚ).getD 7 0 = 80 := by
  refine ⟨by decide, by decide, by decide, by decide, by decide, by decide, by decide,
    by decide, by decide⟩

/-- C5 counterexample: with the all-zero ScalingVector on a regularly spaced
8-point profile, the warped value at output depth `7` is the SOURCE value at
depth `6` (`0`), while the source resampled at the output step has value
`100` there: the discrepancy is `100`, far beyond numeric tolerance, so the
identity law fails.  (The warped depth axis itself is reproduced exactly;
only the values are mis-registered.) -/
theorem scale_profile_identity_counterexample :
    (scale_profile [0, 0] [0, 1, 2, 3, 4, 5, 6, 7] [0, 0, 0, 0, 0, 0, 0, 100]
      4 none).1 = ([0, 1, 2, 3, 4, 5, 6, 7] : List ℚ) ∧
    (scale_profile [0, 0] [0, 1, 2, 3, 4, 5, 6, 7] [0, 0, 0, 0, 0, 0, 0, 100]
      4 none).2.getD 7 0 = 0 ∧
    (([0, 0, 0, 0, 0, 0, 0, 100] : List ℚ).getD 7 0 = 100) ∧
    ¬ |(0 : ℚ) - 100| ≤ 1 := by
  refine ⟨by decide, by decide, by decide, by decide⟩

/-- C8 counterexample: the warped depth axis need not be STRICTLY
increasing: with two one-step layers (`l_resample = 1`, `h_resample = 1`,
zero scaling) over a quarter-step source grid, the output depth axis is
`[0, 1, 1]` — the second layer contributes a single duplicated depth — so
`Sorted (· < ·)` fails (while `Sorted (· ≤ ·)` holds, see the amended
theorem). -/
theorem scale_profile_strict_counterexample :
    (scale_profile [0, 0] (arangeQ 0 2 (1 / 4)) [1, 2, 3, 4, 5, 6, 7, 8] 1
      (some 1)).1 = [0, 1, 1] ∧
    ¬ List.Sorted (· < ·)
      ((scale_profile [0, 0] (arangeQ 0 2 (1 / 4)) [1, 2, 3, 4, 5, 6, 7, 8] 1
        (some 1)).1) := by
  refine ⟨by decide, ?_⟩
  intro hs
  rw [show (scale_profile [0, 0] (arangeQ 0 2 (1 / 4)) [1, 2, 3, 4, 5, 6, 7, 8] 1
    (some 1)).1 = [0, 1, 1] from by decide] at hs
  have h11 : (1 : ℚ) < 1 := (List.pairwise_cons.mp
    (List.pairwise_cons.mp hs).2).1 1 (List.mem_singleton.mpr rfl)
  exact absurd h11 (lt_irrefl 1)

theorem argminAbs_cons_cons (x y : ℚ) (rest2 : List ℚ) (t : ℚ) :
    argminAbs (x :: y :: rest2) t =
      if |(y :: rest2).getD (argminAbs (y :: rest2) t) 0 - t| < |x - t| then
        argminAbs (y :: rest2) t + 1
      else 0 := rfl

theorem argminAbs_lt_length (t : ℚ) :
    ∀ (xs : List ℚ), xs ≠ [] → argminAbs xs t < xs.length := by
  intro xs
  induction xs with
  | nil => intro h; exact absurd rfl h
  | cons x rest ih =>
    intro _
    match rest with
    | [] => exact Nat.zero_lt_one
    | y :: rest2 =>
      rw [argminAbs_cons_cons]
      split
      · exact Nat.succ_lt_succ (ih (by simp))
      · exact Nat.zero_lt_succ _

theorem argminAbs_eq_of_forall_lt (t : ℚ) :
    ∀ (xs : List ℚ) (j : ℕ), j < xs.length →
      (∀ i, i < xs.length → i ≠ j → |xs.getD j 0 - t| < |xs.getD i 0 - t|) →
      argminAbs xs t = j := by
  intro xs
  induction xs with
  | nil => intro j hj; exact absurd hj (by simp)
  | cons x rest ih =>
    intro j hj hmin
    match rest with
    | [] =>
      match j with
      | 0 => rfl
      | j + 1 => exact absurd hj (by simp)
    | y :: rest2 =>
      rw [argminAbs_cons_cons]
      match j with
      | 0 =>
        rw [if_neg]
        push_neg
        have hlt := argminAbs_lt_length t (y :: rest2) (by simp)
        have := hmin (argminAbs (y :: rest2) t + 1)
          (by simpa using Nat.succ_lt_succ hlt) (by simp)
        rw [List.getD_cons_succ, List.getD_cons_zero] at this
        exact le_of_lt this
      | j + 1 =>
        have hjr : j < (y :: rest2).length := Nat.lt_of_succ_lt_succ hj
        have hrec : argminAbs (y :: rest2) t = j := by
          apply ih j hjr
          intro i hi hij
          have := hmin (i + 1) (Nat.succ_lt_succ hi) (by omega)
          rwa [List.getD_cons_succ, List.getD_cons_succ] at this
        rw [hrec, if_pos]
        have := hmin 0 (Nat.zero_lt_succ _) (by omega)
        rwa [List.getD_cons_succ, List.getD_cons_zero] at this

theorem grid_length (h : ℚ) (L : ℕ) :
    ((List.range L).map (fun k : ℕ => (k : ℚ) * h)).length = L := by
  rw [List.length_map, List.length_range]

theorem grid_getD (h : ℚ) (L i : ℕ) (hi : i < L) :
    ((List.range L).map (fun k : ℕ => (k : ℚ) * h)).getD i 0 = (i : ℚ) * h := by
  rw [List.getD_eq_getElem _ _ (by rw [grid_length]; exact hi), List.getElem_map,
    List.getElem_range]

theorem argminAbs_grid (h : ℚ) (hh : 0 < h) (L m : ℕ) (hL : 0 < L) :
    argminAbs ((List.range L).map (fun k : ℕ => (k : ℚ) * h)) ((m : ℚ) * h) =
      min m (L - 1) := by
  have hlen : ((List.range L).map (fun k : ℕ => (k : ℚ) * h)).length = L := grid_length h L
  have hjL : min m (L - 1) < L := by omega
  apply argminAbs_eq_of_forall_lt
  · rw [hlen]; exact hjL
  · intro i hi hij
    rw [hlen] at hi
    rw [grid_getD h L _ hjL, grid_getD h L _ hi]
    have hfac : ∀ a : ℕ, ((a : ℚ) * h - (m : ℚ) * h) = ((a : ℚ) - m) * h := by
      intro a; ring
    rw [hfac, hfac, abs_mul, abs_mul, abs_of_pos hh]
    apply mul_lt_mul_of_pos_right _ hh
    rcases Nat.lt_or_ge m L with hmL | hmL
    · have hjm : min m (L - 1) = m := by omega
      rw [hjm] at hij ⊢
      rw [sub_self, abs_zero]
      apply abs_pos.mpr
      have hne : (i : ℚ) ≠ (m : ℚ) := by
        intro hc
        exact hij (by exact_mod_cast hc)
      exact sub_ne_zero.mpr hne
    · have hjm : min m (L - 1) = L - 1 := by omega
      rw [hjm] at hij ⊢
      have hiL : i < L - 1 := by omega
      have hc1 : ((L - 1 : ℕ) : ℚ) ≤ (m : ℚ) := by
        exact_mod_cast Nat.le_of_lt_succ (by omega)
      have hc2 : (i : ℚ) < ((L - 1 : ℕ) : ℚ) := by exact_mod_cast hiL
      rw [abs_of_nonpos (by linarith), abs_of_nonpos (by linarith)]
      linarith

theorem pyRound_natCast (n : ℕ) : pyRound (n : ℚ) = n := by
  rw [pyRound, if_neg, round_natCast]
  rw [Int.fract_natCast]
  norm_num

theorem zoomLin_length (v : List ℚ) (m0 : ℕ) (hv : v.length ≠ 0) :
    (zoomLin v ((m0 : ℚ) / (v.length : ℚ))).length = m0 := by
  have hq : ((v.length : ℚ)) ≠ 0 := Nat.cast_ne_zero.mpr hv
  have harg : (v.length : ℚ) * ((m0 : ℚ) / (v.length : ℚ)) = (m0 : ℚ) := by
    field_simp
  simp only [zoomLin]
  rw [harg, pyRound_natCast, if_neg hv, List.length_map, List.length_range,
    Int.toNat_natCast]

theorem grid_slice (h : ℚ) (L s e : ℕ) (hse : s ≤ e) (heL : e < L) :
    ((((List.range L).map (fun k : ℕ => (k : ℚ) * h)).drop s).take (e + 1 - s)) =
      (List.range (e + 1 - s)).map (fun k : ℕ => ((s + k : ℕ) : ℚ) * h) := by
  apply List.ext_getElem
  · rw [List.length_take, List.length_drop, grid_length, List.length_map,
      List.length_range]
    omega
  · intro n h1 h2
    rw [List.getElem_take, List.getElem_drop, List.getElem_map, List.getElem_range,
      List.getElem_map, List.getElem_range]

theorem sub_qmod_eq (s h : ℚ) (hh : h ≠ 0) : s - qmod s h = h * ⌊s / h⌋ := by
  rw [qmod, if_neg hh]
  ring

theorem grid_slice_sorted (h : ℚ) (hh : 0 < h) (c s : ℕ) :
    List.Sorted (· ≤ ·)
      ((List.range c).map (fun k : ℕ => ((s + k : ℕ) : ℚ) * h)) := by
  rw [List.Sorted, List.pairwise_map]
  apply List.Pairwise.imp ?_ (List.sorted_lt_range c)
  intro a b hab
  have hc : ((s + a : ℕ) : ℚ) ≤ ((s + b : ℕ) : ℚ) := by
    exact_mod_cast Nat.add_le_add_left (le_of_lt hab) s
  exact mul_le_mul_of_nonneg_right hc (le_of_lt hh)

theorem zoomLin_zero (v : List ℚ) : zoomLin v 0 = [] := by
  simp only [zoomLin, mul_zero]
  rw [show pyRound 0 = 0 from by rw [pyRound, if_neg]; exact round_zero; rw [Int.fract_zero]; norm_num]
  rw [show ((0 : ℤ).toNat) = 0 from rfl, List.range_zero, List.map_nil, ite_self]

theorem scaleStep_preserves (depth value lt : List ℚ) (lr h : ℚ) (L : ℕ)
    (hh : 0 < h) (hL : 0 < L) (hlen : depth.length = value.length)
    (st : ScaleState) (j : ℕ)
    (hsum_nn : (0 : ℚ) ≤ (lt.take (j + 1)).sum)
    (sIdx : ℕ)
    (hA : st.llast + h = (sIdx : ℚ) * h)
    (hsIdx : sIdx ≤ (⌊(lt.take (j + 1)).sum / h⌋).toNat + 1)
    (hB : List.Sorted (· ≤ ·) st.dist)
    (hC : st.dist.length = st.value.length)
    (hD : ∀ x ∈ st.dist, x ≤ ((min sIdx (L - 1) : ℕ) : ℚ) * h) :
    (scaleStep depth value lt ((List.range L).map (fun k : ℕ => (k : ℚ) * h)) lr h
        st j).llast = (((⌊(lt.take (j + 1)).sum / h⌋).toNat : ℕ) : ℚ) * h ∧
    List.Sorted (· ≤ ·)
      (scaleStep depth value lt ((List.range L).map (fun k : ℕ => (k : ℚ) * h)) lr h
        st j).dist ∧
    (scaleStep depth value lt ((List.range L).map (fun k : ℕ => (k : ℚ) * h)) lr h
        st j).dist.length =
      (scaleStep depth value lt ((List.range L).map (fun k : ℕ => (k : ℚ) * h)) lr h
        st j).value.length ∧
    ∀ x ∈ (scaleStep depth value lt ((List.range L).map (fun k : ℕ => (k : ℚ) * h)) lr
        h st j).dist,
      x ≤ ((min ((⌊(lt.take (j + 1)).sum / h⌋).toNat + 1) (L - 1) : ℕ) : ℚ) * h := by
  have hKnn : (0 : ℤ) ≤ ⌊(lt.take (j + 1)).sum / h⌋ :=
    Int.floor_nonneg.mpr (div_nonneg hsum_nn (le_of_lt hh))
  have hKcast : (((⌊(lt.take (j + 1)).sum / h⌋).toNat : ℕ) : ℚ) =
      ((⌊(lt.take (j + 1)).sum / h⌋ : ℤ) : ℚ) := by
    rw [← Int.cast_natCast, Int.toNat_of_nonneg hKnn]
  have hlend : (lt.take (j + 1)).sum - qmod ((lt.take (j + 1)).sum) h =
      (((⌊(lt.take (j + 1)).sum / h⌋).toNat : ℕ) : ℚ) * h := by
    rw [sub_qmod_eq _ _ (ne_of_gt hh), hKcast, mul_comm]
  have hlei : argminAbs ((List.range L).map (fun k : ℕ => (k : ℚ) * h))
      ((lt.take (j + 1)).sum - qmod ((lt.take (j + 1)).sum) h) =
      min ((⌊(lt.take (j + 1)).sum / h⌋).toNat) (L - 1) := by
    rw [hlend, argminAbs_grid h hh L _ hL]
  have hlsi : argminAbs ((List.range L).map (fun k : ℕ => (k : ℚ) * h))
      (st.llast + h) = min sIdx (L - 1) := by
    rw [hA, argminAbs_grid h hh L _ hL]
  have hbound : ∀ x ∈ st.dist,
      x ≤ ((min ((⌊(lt.take (j + 1)).sum / h⌋).toNat + 1) (L - 1) : ℕ) : ℚ) * h := by
    intro x hx
    refine le_trans (hD x hx) ?_
    have hmle : (min sIdx (L - 1) : ℕ) ≤
        min ((⌊(lt.take (j + 1)).sum / h⌋).toNat + 1) (L - 1) := by omega
    exact mul_le_mul_of_nonneg_right (by exact_mod_cast hmle) (le_of_lt hh)
  simp only [scaleStep, hlsi, hlei]
  by_cases hse : min sIdx (L - 1) ≤ min ((⌊(lt.take (j + 1)).sum / h⌋).toNat) (L - 1)
  · by_cases hcond : 2 < ((value.drop (argminAbs depth (lr * (j : ℚ)))).take
        (argminAbs depth (lr * (j : ℚ) + lr) - argminAbs depth (lr * (j : ℚ)))).length
    · rw [if_pos hcond]
      rw [grid_slice h L _ _ hse (by omega)]
      rw [List.length_map, List.length_range]
      have hodov : ((depth.drop (argminAbs depth (lr * (j : ℚ)))).take
          (argminAbs depth (lr * (j : ℚ) + lr) - argminAbs depth (lr * (j : ℚ)))).length =
          ((value.drop (argminAbs depth (lr * (j : ℚ)))).take
          (argminAbs depth (lr * (j : ℚ) + lr) - argminAbs depth (lr * (j : ℚ)))).length := by
        rw [List.length_take, List.length_drop, List.length_take, List.length_drop, hlen]
      rw [hodov]
      have hzlen : (zoomLin ((value.drop (argminAbs depth (lr * (j : ℚ)))).take
          (argminAbs depth (lr * (j : ℚ) + lr) - argminAbs depth (lr * (j : ℚ))))
          (((min ((⌊(lt.take (j + 1)).sum / h⌋).toNat) (L - 1) + 1 -
              min sIdx (L - 1) : ℕ) : ℚ) /
            (((value.drop (argminAbs depth (lr * (j : ℚ)))).take
              (argminAbs depth (lr * (j : ℚ) + lr) -
                argminAbs depth (lr * (j : ℚ)))).length : ℚ))).length =
          min ((⌊(lt.take (j + 1)).sum / h⌋).toNat) (L - 1) + 1 - min sIdx (L - 1) :=
        zoomLin_length _ _ (by omega)
      refine ⟨hlend, ?_, ?_, ?_⟩
      · show List.Pairwise (· ≤ ·) _
        refine List.pairwise_append.mpr ⟨hB, grid_slice_sorted h hh _ _, ?_⟩
        intro a ha b hb
        obtain ⟨k, hk, rfl⟩ := List.mem_map.mp hb
        refine le_trans (hD a ha) ?_
        have hle : (min sIdx (L - 1) : ℕ) ≤ min sIdx (L - 1) + k := Nat.le_add_right _ _
        exact mul_le_mul_of_nonneg_right (by exact_mod_cast hle) (le_of_lt hh)
      · show (st.dist ++ _).length = (st.value ++ _).length
        rw [List.length_append, List.length_append, hC, List.length_map,
          List.length_range, hzlen]
      · intro x hx
        rcases List.mem_append.mp hx with hx | hx
        · exact hbound x hx
        · obtain ⟨k, hk, rfl⟩ := List.mem_map.mp hx
          rw [List.mem_range] at hk
          have hle : min sIdx (L - 1) + k ≤
              min ((⌊(lt.take (j + 1)).sum / h⌋).toNat + 1) (L - 1) := by omega
          exact mul_le_mul_of_nonneg_right (by exact_mod_cast hle) (le_of_lt hh)
    · rw [if_neg hcond]
      exact ⟨hlend, hB, hC, hbound⟩
  · have h0 : min ((⌊(lt.take (j + 1)).sum / h⌋).toNat) (L - 1) + 1 -
        min sIdx (L - 1) = 0 := by omega
    by_cases hcond : 2 < ((value.drop (argminAbs depth (lr * (j : ℚ)))).take
        (argminAbs depth (lr * (j : ℚ) + lr) - argminAbs depth (lr * (j : ℚ)))).length
    · rw [if_pos hcond, h0, List.take_zero, List.length_nil, Nat.cast_zero, zero_div,
        zoomLin_zero, List.append_nil, List.append_nil]
      exact ⟨hlend, hB, hC, hbound⟩
    · rw [if_neg hcond]
      exact ⟨hlend, hB, hC, hbound⟩

theorem scaleFold_invariant (depth value lt : List ℚ) (lr h : ℚ) (L : ℕ)
    (hh : 0 < h) (hL : 0 < L) (hlen : depth.length = value.length)
    (hlt : ∀ i, (hi : i < lt.length) → 0 < lt[i]) :
    ∀ j, j ≤ lt.length →
      ((scaleFold depth value lt lr h L j).llast + h =
        (((if j = 0 then 0 else (⌊(lt.take j).sum / h⌋).toNat + 1) : ℕ) : ℚ) * h) ∧
      List.Sorted (· ≤ ·) (scaleFold depth value lt lr h L j).dist ∧
      (scaleFold depth value lt lr h L j).dist.length =
        (scaleFold depth value lt lr h L j).value.length ∧
      ∀ x ∈ (scaleFold depth value lt lr h L j).dist,
        x ≤ ((min (if j = 0 then 0 else (⌊(lt.take j).sum / h⌋).toNat + 1)
          (L - 1) : ℕ) : ℚ) * h := by
  intro j
  induction j with
  | zero =>
    intro _
    refine ⟨by norm_num [scaleFold], List.sorted_nil, rfl, ?_⟩
    intro x hx
    cases hx
  | succ j ih =>
    intro hj
    obtain ⟨hA, hB, hC, hD⟩ := ih (Nat.le_of_succ_le hj)
    have hjlt : j < lt.length := hj
    have hsum : (lt.take (j + 1)).sum = (lt.take j).sum + lt[j] :=
      List.sum_take_succ lt j hjlt
    have hsum_nn : ∀ jj, (0 : ℚ) ≤ (lt.take jj).sum := by
      intro jj
      apply List.sum_nonneg
      intro x hx
      obtain ⟨i, hi, rfl⟩ := List.mem_iff_getElem.mp (List.mem_of_mem_take hx)
      exact le_of_lt (hlt i hi)
    have hfl : ⌊(lt.take j).sum / h⌋ ≤ ⌊(lt.take (j + 1)).sum / h⌋ := by
      apply Int.floor_le_floor
      apply (div_le_div_right hh).mpr
      rw [hsum]
      exact le_add_of_nonneg_right (le_of_lt (hlt j hjlt))
    have hnnj : (0 : ℤ) ≤ ⌊(lt.take j).sum / h⌋ :=
      Int.floor_nonneg.mpr (div_nonneg (hsum_nn j) (le_of_lt hh))
    have hsIdx : (if j = 0 then 0 else (⌊(lt.take j).sum / h⌋).toNat + 1) ≤
        (⌊(lt.take (j + 1)).sum / h⌋).toNat + 1 := by
      by_cases hj0 : j = 0
      · rw [if_pos hj0]
        omega
      · rw [if_neg hj0]
        omega
    have hfold : scaleFold depth value lt lr h L (j + 1) =
        scaleStep depth value lt ((List.range L).map (fun k : ℕ => (k : ℚ) * h)) lr h
          (scaleFold depth value lt lr h L j) j := by
      rw [scaleFold, scaleFold, List.range_succ, List.foldl_append, List.foldl_cons,
        List.foldl_nil]
    have hstep := scaleStep_preserves depth value lt lr h L hh hL hlen
      (scaleFold depth value lt lr h L j) j (hsum_nn (j + 1))
      (if j = 0 then 0 else (⌊(lt.take j).sum / h⌋).toNat + 1) hA hsIdx hB hC hD
    rw [hfold]
    refine ⟨?_, hstep.2.1, hstep.2.2.1, ?_⟩
    · rw [hstep.1, if_neg (Nat.succ_ne_zero j)]
      push_cast
      ring
    · rw [if_neg (Nat.succ_ne_zero j)]
      exact hstep.2.2.2

theorem arangeQ_zero_eq (T h : ℚ) (hh : h ≠ 0) :
    arangeQ 0 T h = (List.range ((⌈T / h⌉).toNat)).map (fun k : ℕ => (k : ℚ) * h) := by
  rw [arangeQ, if_neg hh, sub_zero]
  apply List.map_congr_left
  intro a _
  rw [zero_add]

theorem scale_profile_eq_fold (scaling depth value : List ℚ) (lr h : ℚ) (hh : h ≠ 0) :
    scale_profile scaling depth value lr (some h) =
      ((scaleFold depth value (scaling.map (fun s => lr + s * lr)) lr h
          ((⌈(scaling.map (fun s => lr + s * lr)).sum / h⌉).toNat)
          scaling.length).dist,
        (scaleFold depth value (scaling.map (fun s => lr + s * lr)) lr h
          ((⌈(scaling.map (fun s => lr + s * lr)).sum / h⌉).toNat)
          scaling.length).value) := by
  simp only [scale_profile, Option.getD_some, scaleFold]
  rw [arangeQ_zero_eq _ _ hh]

/-- C8 (amended): for every valid input — positive resample step `h`,
aligned depth/value arrays, and a ScalingVector whose stretched layer
thicknesses are positive (`-1 < s`, which the data-model bound
`|s| ≤ max_layer_stretch < 1` guarantees; with a non-positive total
thickness the source raises on an empty `depth_stretch`, and with
mixed-sign thicknesses monotonicity genuinely fails) — `scale_profile`
returns a depth axis that is NON-DECREASING (adjacent duplicates can occur,
see the counterexample, so it is not strictly increasing) and depth and
value arrays of equal length. -/
theorem scale_profile_sorted_length (scaling depth value : List ℚ) (lr h : ℚ)
    (hh : 0 < h) (hlen : depth.length = value.length)
    (ht : ∀ s ∈ scaling, 0 < lr + s * lr) :
    List.Sorted (· ≤ ·) (scale_profile scaling depth value lr (some h)).1 ∧
    (scale_profile scaling depth value lr (some h)).1.length =
      (scale_profile scaling depth value lr (some h)).2.length := by
  rw [scale_profile_eq_fold scaling depth value lr h (ne_of_gt hh)]
  by_cases hn : scaling.length = 0
  · have hnil : scaling = [] := List.length_eq_zero.mp hn
    subst hnil
    exact ⟨List.sorted_nil, rfl⟩
  · have hlt : ∀ i, (hi : i < (scaling.map (fun s => lr + s * lr)).length) →
        0 < (scaling.map (fun s => lr + s * lr))[i] := by
      intro i hi
      rw [List.getElem_map]
      exact ht _ (List.getElem_mem _)
    have hpos0 : 0 < (scaling.map (fun s => lr + s * lr)).length := by
      rw [List.length_map]
      omega
    have hTpos : 0 < (scaling.map (fun s => lr + s * lr)).sum := by
      refine lt_of_lt_of_le (hlt 0 hpos0) ?_
      apply List.single_le_sum
      · intro y hy
        obtain ⟨i, hi, rfl⟩ := List.mem_iff_getElem.mp hy
        exact le_of_lt (hlt i hi)
      · exact List.getElem_mem _
    have hL : 0 < (⌈(scaling.map (fun s => lr + s * lr)).sum / h⌉).toNat := by
      have h2 : 0 < ⌈(scaling.map (fun s => lr + s * lr)).sum / h⌉ :=
        Int.ceil_pos.mpr (div_pos hTpos hh)
      omega
    have hinv := scaleFold_invariant depth value (scaling.map (fun s => lr + s * lr))
      lr h _ hh hL hlen hlt scaling.length (by rw [List.length_map])
    exact ⟨hinv.2.1, hinv.2.2.1⟩

/-- C8 witness: the two-layer zero-scaling profile of the C5 analysis
satisfies the hypotheses (`h = 1 > 0`, aligned arrays, positive stretched
layer thickness `4`). -/
theorem scale_profile_sorted_length_witness :
    List.Sorted (· ≤ ·)
      (scale_profile [0, 0] [0, 1, 2, 3, 4, 5, 6, 7]
        [10, 20, 30, 40, 50, 60, 70, 80] 4 (some 1)).1 ∧
    (scale_profile [0, 0] [0, 1, 2, 3, 4, 5, 6, 7]
        [10, 20, 30, 40, 50, 60, 70, 80] 4 (some 1)).1.length =
      (scale_profile [0, 0] [0, 1, 2, 3, 4, 5, 6, 7]
        [10, 20, 30, 40, 50, 60, 70, 80] 4 (some 1)).2.length :=
  scale_profile_sorted_length [0, 0] [0, 1, 2, 3, 4, 5, 6, 7]
    [10, 20, 30, 40, 50, 60, 70, 80] 4 1 (by norm_num) (by decide) (by decide)
